import Mathlib

/-!
# MULTI / EXEC / DISCARD of godis (`multi.go`)

A shallow embedding of `StartMulti`, `EnqueueCmd`, `execMulti`, `ExecMulti` and
`DiscardMulti`.  The keyspace engine, the command table, the arity rule and the
case folding are collaborators that `multi.go` only calls; they are the fields
of `Env`.  A call of `ExecMulti` also records the ordered list of keyspace and
lock actions it performs, so that "what was executed, and in which order" can be
stated.
-/

namespace Godis

/-- A command line (`[][]byte` / `CmdLine`): token 0 is the command name, the
remaining tokens are the arguments. -/
abbrev CmdLine := List String

/-- Modelled from the spec: the `reply` package is missing from src.  The spec
lists a "simple OK" status, a "queued" status, an error with a message and an
aggregate wrapping an ordered list of sub-results; `argNumErr` is the wrong
arity error of `MakeArgNumErrReply`, and `value` stands for every other
non-error result a command executor produces. -/
inductive Reply where
  | ok : Reply
  | queued : Reply
  | err (status : String) : Reply
  | argNumErr (cmd : String) : Reply
  | multiRaw (replies : List Reply) : Reply
  | value (payload : String) : Reply

/-- Modelled from the spec: `reply.IsErrorReply` is missing from src; it holds
exactly of the error-kind results. -/
def IsErrorReply : Reply → Bool
  | .err _ => true
  | .argNumErr _ => true
  | _ => false

/-- A run-time failure of the Go code. -/
inductive Panic where
  | indexOutOfRange : Panic
  | nilDereference : Panic
  deriving DecidableEq

/-- A command descriptor, as far as `multi.go` reads it: `prepare` may be nil. -/
structure command where
  prepare : Option (List String → List String × List String)
  arity : Int

/-- The collaborators `multi.go` calls and does not define, over a keyspace
state `σ`: `strings.ToLower`, the global `cmdTable`, `validateArity`,
`db.GetUndoLogs` and `db.ExecWithLock`. -/
structure Env (σ : Type) where
  toLower : String → String
  cmdTable : String → Option command
  validateArity : Int → CmdLine → Bool
  GetUndoLogs : σ → CmdLine → List CmdLine
  ExecWithLock : σ → CmdLine → σ × Reply

/-- The denylist `forbiddenInMulti = set.Make("flushdb", "flushall")`. -/
def forbiddenInMulti : List String := ["flushdb", "flushall"]

/-- The transaction state of a connection: the flag and the pending queue. -/
structure Session where
  multiState : Bool
  queue : List CmdLine

/-- Modelled from the spec: `Connection.InMultiState` is missing from src; it
reads the "in transaction" flag. -/
def Session.InMultiState (c : Session) : Bool := c.multiState

/-- Modelled from the spec: `Connection.SetMultiState` is missing from src.
Setting the flag true has no side effect on the buffer; setting it false is the
whole of what `execMulti` does to the session, where the spec says the session
state is cleared (flag false, buffer empty). -/
def Session.SetMultiState (c : Session) (state : Bool) : Session :=
  if state then { c with multiState := true } else { multiState := false, queue := [] }

/-- Modelled from the spec: `Connection.EnqueueCmd` is missing from src; it
appends the command line to the pending buffer. -/
def Session.EnqueueCmd (c : Session) (cmdLine : CmdLine) : Session :=
  { c with queue := c.queue ++ [cmdLine] }

/-- Modelled from the spec: `Connection.GetQueuedCmdLine` is missing from src;
it reads the pending buffer. -/
def Session.GetQueuedCmdLine (c : Session) : List CmdLine := c.queue

/-- Modelled from the spec: `Connection.ClearQueuedCmds` is missing from src;
it empties the pending buffer. -/
def Session.ClearQueuedCmds (c : Session) : Session :=
  { c with queue := [] }

/-- One keyspace or lock action of `ExecMulti`. -/
inductive Action where
  | RWLocks (writeKeys readKeys : List String) : Action
  | GetUndoLogs (cmdLine : CmdLine) : Action
  | ExecWithLock (cmdLine : CmdLine) : Action
  | RWUnLocks (writeKeys readKeys : List String) : Action
  deriving DecidableEq

/-- What `ExecMulti` leaves behind: the keyspace, the reply, the actions done. -/
structure Outcome (σ : Type) where
  db : σ
  reply : Reply
  trace : List Action

/-- What a session operation leaves behind. -/
structure Result (σ : Type) where
  db : σ
  conn : Session
  reply : Reply
  trace : List Action

variable {σ : Type}

/-- `StartMulti` (multi.go 16-22). -/
def StartMulti (db : σ) (conn : Session) : Result σ :=
  if conn.InMultiState then
    ⟨db, conn, Reply.err "ERR MULTI calls can not be nested", []⟩
  else
    ⟨db, conn.SetMultiState true, Reply.ok, []⟩

/-- `EnqueueCmd` (multi.go 25-43); `cmdLine[0]` of an empty line panics. -/
def EnqueueCmd (env : Env σ) (db : σ) (conn : Session) (cmdLine : CmdLine) :
    Except Panic (Result σ) :=
  match cmdLine with
  | [] => .error Panic.indexOutOfRange
  | name :: _ =>
    let cmdName := env.toLower name
    match env.cmdTable cmdName with
    | none => .ok ⟨db, conn, Reply.err ("ERR unknown command \x27" ++ cmdName ++ "\x27"), []⟩
    | some cmd =>
      if forbiddenInMulti.contains cmdName then
        .ok ⟨db, conn,
          Reply.err ("ERR command \x27" ++ cmdName ++ "\x27 cannot be used in MULTI"), []⟩
      else if cmd.prepare.isNone then
        .ok ⟨db, conn,
          Reply.err ("ERR command \x27" ++ cmdName ++ "\x27 cannot be used in MULTI"), []⟩
      else if !env.validateArity cmd.arity cmdLine then
        .ok ⟨db, conn, Reply.argNumErr cmdName, []⟩
      else
        .ok ⟨db, conn.EnqueueCmd cmdLine, Reply.queued, []⟩

/-- The planning loop of `ExecMulti` (multi.go 57-66): the unchecked table
lookup and the unguarded call of `prepare` on `cmdLine[1:]`. -/
def planLoop (env : Env σ) :
    List CmdLine → List String → List String → Except Panic (List String × List String)
  | [], writeKeys, readKeys => .ok (writeKeys, readKeys)
  | cmdLine :: rest, writeKeys, readKeys =>
    match cmdLine with
    | [] => .error Panic.indexOutOfRange
    | name :: args =>
      match env.cmdTable (env.toLower name) with
      | none => .error Panic.nilDereference
      | some cmd =>
        match cmd.prepare with
        | none => .error Panic.nilDereference
        | some prepare =>
          planLoop env rest (writeKeys ++ (prepare args).1) (readKeys ++ (prepare args).2)

/-- The local variables of the execute loop of `ExecMulti`. -/
structure Run (σ : Type) where
  db : σ
  results : List Reply
  aborted : Bool
  undoCmdLines : List (List CmdLine)
  trace : List Action

/-- The execute loop of `ExecMulti` (multi.go 74-84). -/
def execLoop (env : Env σ) : List CmdLine → Run σ → Run σ
  | [], st => st
  | cmdLine :: rest, st =>
    let undoCmdLines := st.undoCmdLines ++ [env.GetUndoLogs st.db cmdLine]
    let out := env.ExecWithLock st.db cmdLine
    let trace := st.trace ++ [Action.GetUndoLogs cmdLine, Action.ExecWithLock cmdLine]
    if IsErrorReply out.2 then
      { db := out.1, results := st.results, aborted := true,
        undoCmdLines := undoCmdLines.dropLast, trace := trace }
    else
      execLoop env rest
        { db := out.1, results := st.results ++ [out.2], aborted := st.aborted,
          undoCmdLines := undoCmdLines, trace := trace }

/-- The inner loop of the rollback (multi.go 95-97): the lines of one undo
entry, in their listed order, their replies dropped. -/
def replayLines (env : Env σ) : List CmdLine → σ × List Action → σ × List Action
  | [], st => st
  | cmdLine :: rest, st =>
    replayLines env rest ((env.ExecWithLock st.1 cmdLine).1, st.2 ++ [Action.ExecWithLock cmdLine])

/-- The rollback loop of `ExecMulti` (multi.go 89-98); the first argument is
`i + 1` for the loop index `i`, which runs from `size - 1` down to `0`. -/
def undoLoop (env : Env σ) (undoCmdLines : List (List CmdLine)) :
    Nat → σ × List Action → σ × List Action
  | 0, st => st
  | i + 1, st =>
    let curCmdLines := undoCmdLines.getD i []
    if curCmdLines.length = 0 then
      undoLoop env undoCmdLines i st
    else
      undoLoop env undoCmdLines i (replayLines env curCmdLines st)

/-- `ExecMulti` (multi.go 55-100); the deferred `RWUnLocks` is the last action. -/
def ExecMulti (env : Env σ) (db : σ) (cmdLines : List CmdLine) : Except Panic (Outcome σ) :=
  match planLoop env cmdLines [] [] with
  | .error p => .error p
  | .ok (writeKeys, readKeys) =>
    let run := execLoop env cmdLines
      { db := db, results := [], aborted := false, undoCmdLines := [],
        trace := [Action.RWLocks writeKeys readKeys] }
    if !run.aborted then
      .ok ⟨run.db, Reply.multiRaw run.results,
        run.trace ++ [Action.RWUnLocks writeKeys readKeys]⟩
    else
      let size := run.undoCmdLines.length
      let fin := undoLoop env run.undoCmdLines size (run.db, run.trace)
      .ok ⟨fin.1, Reply.err "EXECABORT Transaction discarded because of previous errors.",
        fin.2 ++ [Action.RWUnLocks writeKeys readKeys]⟩

/-- `execMulti` (multi.go 45-52); the deferred `SetMultiState(false)` runs
after `ExecMulti` has returned. -/
def execMulti (env : Env σ) (db : σ) (conn : Session) : Except Panic (Result σ) :=
  if !conn.InMultiState then
    .ok ⟨db, conn, Reply.err "ERR EXEC without MULTI", []⟩
  else
    let cmdLines := conn.GetQueuedCmdLine
    match ExecMulti env db cmdLines with
    | .error p => .error p
    | .ok out => .ok ⟨out.db, conn.SetMultiState false, out.reply, out.trace⟩

/-- `DiscardMulti` (multi.go 103-110). -/
def DiscardMulti (db : σ) (conn : Session) : Result σ :=
  if !conn.InMultiState then
    ⟨db, conn, Reply.err "ERR DISCARD without MULTI", []⟩
  else
    ⟨db, (conn.ClearQueuedCmds).SetMultiState false, Reply.queued, []⟩

/-! ## Vocabulary of the properties -/

/-- The keyspace left by executing the lines in order from `s`, replies dropped. -/
def runCmds (env : Env σ) (s : σ) : List CmdLine → σ
  | [] => s
  | c :: cs => runCmds env (env.ExecWithLock s c).1 cs

/-- The reply of command `i` (from 0) of the batch, executed on the keyspace
left by the commands before it. -/
def replyAt (env : Env σ) (s : σ) (batch : List CmdLine) (i : Nat) : Reply :=
  (env.ExecWithLock (runCmds env s (batch.take i)) (batch.getD i [])).2

/-- The undo entry of command `i` (from 0) of the batch: what `GetUndoLogs`
returns on the keyspace immediately before that command runs. -/
def undoAt (env : Env σ) (s : σ) (batch : List CmdLine) (i : Nat) : List CmdLine :=
  env.GetUndoLogs (runCmds env s (batch.take i)) (batch.getD i [])

/-- The replies of the lines executed in order from `s`. -/
def repliesOf (env : Env σ) (s : σ) : List CmdLine → List Reply
  | [] => []
  | c :: cs => (env.ExecWithLock s c).2 :: repliesOf env (env.ExecWithLock s c).1 cs

/-- The undo entries captured while the lines are executed in order from `s`. -/
def undoLogsOf (env : Env σ) (s : σ) : List CmdLine → List (List CmdLine)
  | [] => []
  | c :: cs => env.GetUndoLogs s c :: undoLogsOf env (env.ExecWithLock s c).1 cs

/-- The two actions of one forward step: capture the undo entry, then execute. -/
def forwardTrace (cmdLine : CmdLine) : List Action :=
  [Action.GetUndoLogs cmdLine, Action.ExecWithLock cmdLine]

/-- The planning loop can handle the line: it has a token 0, the case-folded
name is in the command table and the descriptor has a prepare function. -/
def plannable (env : Env σ) (cmdLine : CmdLine) : Bool :=
  match cmdLine with
  | [] => false
  | name :: _ =>
    match env.cmdTable (env.toLower name) with
    | none => false
    | some cmd => cmd.prepare.isSome

/-- The keys the prepare function of the line's descriptor returns on the
line's argument tokens (the line without token 0). -/
def keysOf (env : Env σ) (cmdLine : CmdLine) : List String × List String :=
  match cmdLine with
  | [] => ([], [])
  | name :: args =>
    match env.cmdTable (env.toLower name) with
    | none => ([], [])
    | some cmd =>
      match cmd.prepare with
      | none => ([], [])
      | some prepare => prepare args

/-- A command execution, an undo capture or a compensating execution, as
opposed to a lock action. -/
def isKeyspaceAction : Action → Bool
  | .GetUndoLogs _ => true
  | .ExecWithLock _ => true
  | _ => false

/-- The session invariant of the spec: the pending buffer is non-empty only
if the in-transaction flag is true. -/
def sessionInv (c : Session) : Prop := c.queue ≠ [] → c.multiState = true

/-- One call of one of the four session operations. -/
inductive Op where
  | start : Op
  | enqueue (cmdLine : CmdLine) : Op
  | exec : Op
  | discard : Op

/-- Whether the call is an `EnqueueCmd`. -/
def Op.isEnqueue : Op → Bool
  | .enqueue _ => true
  | _ => false

/-- One operation applied to the keyspace and the session. -/
def applyOp (env : Env σ) (st : σ × Session) : Op → Except Panic (σ × Session)
  | .start => .ok ((StartMulti st.1 st.2).db, (StartMulti st.1 st.2).conn)
  | .enqueue cmdLine =>
    match EnqueueCmd env st.1 st.2 cmdLine with
    | .error p => .error p
    | .ok r => .ok (r.db, r.conn)
  | .exec =>
    match execMulti env st.1 st.2 with
    | .error p => .error p
    | .ok r => .ok (r.db, r.conn)
  | .discard => .ok ((DiscardMulti st.1 st.2).db, (DiscardMulti st.1 st.2).conn)

/-- A finite sequence of operations, applied in order. -/
def runOps (env : Env σ) : List Op → σ × Session → Except Panic (σ × Session)
  | [], st => .ok st
  | op :: ops, st =>
    match applyOp env st op with
    | .error p => .error p
    | .ok st1 => runOps env ops st1

/-- The state check of the caller: along the sequence, `EnqueueCmd` is called
only while the in-transaction flag is true. -/
def enqueueOnlyInMulti (env : Env σ) : List Op → σ × Session → Bool
  | [], _ => true
  | op :: ops, st =>
    (!op.isEnqueue || st.2.multiState) &&
      match applyOp env st op with
      | .error _ => true
      | .ok st1 => enqueueOnlyInMulti env ops st1

/-! ## A small keyspace used to instantiate the theorems -/

/-- ASCII case folding. -/
def asciiLower (s : String) : String := String.mk (s.data.map Char.toLower)

/-- A keyspace holding one counter: `incr` and `decr` succeed, `get` reads,
every other line is an error and changes nothing. -/
def toyExec (s : Int) : CmdLine → Int × Reply
  | ["incr", _] => (s + 1, Reply.value "incremented")
  | ["decr", _] => (s - 1, Reply.value "decremented")
  | ["get", _] => (s, Reply.value "read")
  | _ => (s, Reply.err "ERR bad command")

/-- The undo entries of the counter keyspace. -/
def toyUndo (_s : Int) : CmdLine → List CmdLine
  | ["incr", k] => [["decr", k]]
  | ["decr", k] => [["incr", k]]
  | _ => []

/-- The command table of the counter keyspace; `ping` has no prepare function. -/
def toyTable (name : String) : Option command :=
  if name = "incr" ∨ name = "decr" ∨ name = "lpush" then
    some ⟨some (fun args => (args.take 1, [])), 2⟩
  else if name = "get" then some ⟨some (fun args => ([], args.take 1)), 2⟩
  else if name = "flushdb" then some ⟨some (fun _ => ([], [])), -1⟩
  else if name = "ping" then some ⟨none, -1⟩
  else none

/-- The usual arity rule: exact when non-negative, a minimum when negative. -/
def toyArity (arity : Int) (cmdLine : CmdLine) : Bool :=
  if 0 ≤ arity then (cmdLine.length : Int) = arity else -arity ≤ (cmdLine.length : Int)

/-- The counter keyspace as an environment. -/
def toyEnv : Env Int := ⟨asciiLower, toyTable, toyArity, toyUndo, toyExec⟩

/-- The counter keyspace with undo entries whose first line always fails. -/
def failingUndoEnv : Env Int :=
  ⟨asciiLower, toyTable, toyArity, fun s l => ["lpush", "undo", "x"] :: toyUndo s l, toyExec⟩

/-! ## Lemmas -/

theorem runCmds_append (env : Env σ) (s : σ) (a b : List CmdLine) :
    runCmds env s (a ++ b) = runCmds env (runCmds env s a) b := by
  induction a generalizing s with
  | nil => rfl
  | cons c cs ih => simp [runCmds, ih]

theorem replyAt_zero (env : Env σ) (s : σ) (c : CmdLine) (cs : List CmdLine) :
    replyAt env s (c :: cs) 0 = (env.ExecWithLock s c).2 := by
  simp [replyAt, runCmds]

theorem replyAt_succ (env : Env σ) (s : σ) (c : CmdLine) (cs : List CmdLine) (i : Nat) :
    replyAt env s (c :: cs) (i + 1) = replyAt env (env.ExecWithLock s c).1 cs i := by
  simp [replyAt, runCmds]

theorem undoAt_zero (env : Env σ) (s : σ) (c : CmdLine) (cs : List CmdLine) :
    undoAt env s (c :: cs) 0 = env.GetUndoLogs s c := by
  simp [undoAt, runCmds]

theorem undoAt_succ (env : Env σ) (s : σ) (c : CmdLine) (cs : List CmdLine) (i : Nat) :
    undoAt env s (c :: cs) (i + 1) = undoAt env (env.ExecWithLock s c).1 cs i := by
  simp [undoAt, runCmds]

theorem repliesOf_take (env : Env σ) (s : σ) (cs : List CmdLine) (k : Nat)
    (hk : k ≤ cs.length) :
    repliesOf env s (cs.take k) = (List.range k).map (replyAt env s cs) := by
  induction cs generalizing s k with
  | nil =>
    have : k = 0 := by simpa using hk
    subst this; rfl
  | cons c cs ih =>
    cases k with
    | zero => rfl
    | succ k =>
      have hk2 : k ≤ cs.length := by simpa using hk
      simp only [List.take_succ_cons, repliesOf, ih _ k hk2, List.range_succ_eq_map,
        List.map_cons, List.map_map, replyAt_zero]
      refine congrArg _ (List.map_congr_left ?_)
      intro i _
      simp [replyAt_succ]

theorem undoLogsOf_take (env : Env σ) (s : σ) (cs : List CmdLine) (k : Nat)
    (hk : k ≤ cs.length) :
    undoLogsOf env s (cs.take k) = (List.range k).map (undoAt env s cs) := by
  induction cs generalizing s k with
  | nil =>
    have : k = 0 := by simpa using hk
    subst this; rfl
  | cons c cs ih =>
    cases k with
    | zero => rfl
    | succ k =>
      have hk2 : k ≤ cs.length := by simpa using hk
      simp only [List.take_succ_cons, undoLogsOf, ih _ k hk2, List.range_succ_eq_map,
        List.map_cons, List.map_map, undoAt_zero]
      refine congrArg _ (List.map_congr_left ?_)
      intro i _
      simp [undoAt_succ]

theorem planLoop_ok (env : Env σ) (cs : List CmdLine)
    (hplan : ∀ l ∈ cs, plannable env l = true) (w r : List String) :
    ∃ keys, planLoop env cs w r = .ok keys := by
  induction cs generalizing w r with
  | nil => exact ⟨(w, r), rfl⟩
  | cons c cs ih =>
    have hc := hplan c (List.mem_cons_self _ _)
    have hcs : ∀ l ∈ cs, plannable env l = true :=
      fun l hl => hplan l (List.mem_cons_of_mem _ hl)
    cases c with
    | nil => simp [plannable] at hc
    | cons name args =>
      simp only [plannable] at hc
      cases htab : env.cmdTable (env.toLower name) with
      | none => simp [htab] at hc
      | some cmd =>
        simp only [htab] at hc
        cases hp : cmd.prepare with
        | none => simp [hp] at hc
        | some prepare =>
          simp only [planLoop, htab, hp]
          exact ih hcs _ _

theorem runCmds_take_succ (env : Env σ) (s : σ) (cs : List CmdLine) (k : Nat)
    (hk : k < cs.length) :
    runCmds env s (cs.take (k + 1)) =
      (env.ExecWithLock (runCmds env s (cs.take k)) (cs.getD k [])).1 := by
  induction cs generalizing s k with
  | nil => simp at hk
  | cons c cs ih =>
    cases k with
    | zero => simp [runCmds]
    | succ k =>
      have hk2 : k < cs.length := by simpa using hk
      simpa [runCmds] using ih (env.ExecWithLock s c).1 k hk2

theorem execLoop_ok (env : Env σ) (cs : List CmdLine) (st : Run σ)
    (hok : ∀ i, i < cs.length → IsErrorReply (replyAt env st.db cs i) = false) :
    execLoop env cs st =
      { db := runCmds env st.db cs, results := st.results ++ repliesOf env st.db cs,
        aborted := st.aborted, undoCmdLines := st.undoCmdLines ++ undoLogsOf env st.db cs,
        trace := st.trace ++ cs.flatMap forwardTrace } := by
  induction cs generalizing st with
  | nil => simp [execLoop, runCmds, repliesOf, undoLogsOf]
  | cons c cs ih =>
    have h0 : IsErrorReply (env.ExecWithLock st.db c).2 = false := by
      have := hok 0 (by simp)
      rwa [replyAt_zero] at this
    have hrest : ∀ i, i < cs.length →
        IsErrorReply (replyAt env (env.ExecWithLock st.db c).1 cs i) = false := by
      intro i hi
      have := hok (i + 1) (by simpa using hi)
      rwa [replyAt_succ] at this
    simp only [execLoop, h0, Bool.false_eq_true, if_false]
    rw [ih _ hrest]
    simp [runCmds, repliesOf, undoLogsOf, forwardTrace]

theorem execLoop_abort (env : Env σ) (cs : List CmdLine) (k : Nat) (st : Run σ)
    (hk : k < cs.length)
    (hok : ∀ i, i < k → IsErrorReply (replyAt env st.db cs i) = false)
    (hfail : IsErrorReply (replyAt env st.db cs k) = true) :
    execLoop env cs st =
      { db := runCmds env st.db (cs.take (k + 1)),
        results := st.results ++ repliesOf env st.db (cs.take k),
        aborted := true,
        undoCmdLines := st.undoCmdLines ++ undoLogsOf env st.db (cs.take k),
        trace := st.trace ++ (cs.take (k + 1)).flatMap forwardTrace } := by
  induction cs generalizing k st with
  | nil => simp at hk
  | cons c cs ih =>
    cases k with
    | zero =>
      have h0 : IsErrorReply (env.ExecWithLock st.db c).2 = true := by
        rwa [replyAt_zero] at hfail
      simp [execLoop, h0, runCmds, repliesOf, undoLogsOf, forwardTrace]
    | succ k =>
      have hk2 : k < cs.length := by simpa using hk
      have h0 : IsErrorReply (env.ExecWithLock st.db c).2 = false := by
        have := hok 0 (by simp)
        rwa [replyAt_zero] at this
      have hrest : ∀ i, i < k →
          IsErrorReply (replyAt env (env.ExecWithLock st.db c).1 cs i) = false := by
        intro i hi
        have := hok (i + 1) (by simpa using hi)
        rwa [replyAt_succ] at this
      have hf : IsErrorReply (replyAt env (env.ExecWithLock st.db c).1 cs k) = true := by
        rwa [replyAt_succ] at hfail
      simp only [execLoop, h0, Bool.false_eq_true, if_false]
      rw [ih k _ hk2 hrest hf]
      simp [runCmds, repliesOf, undoLogsOf, forwardTrace]

theorem replayLines_eq (env : Env σ) (ls : List CmdLine) (st : σ × List Action) :
    replayLines env ls st = (runCmds env st.1 ls, st.2 ++ ls.map Action.ExecWithLock) := by
  induction ls generalizing st with
  | nil => simp [replayLines, runCmds]
  | cons l ls ih => simp [replayLines, runCmds, ih]

theorem undoLoop_eq (env : Env σ) (U : List (List CmdLine)) (n : Nat) (hn : n ≤ U.length)
    (st : σ × List Action) :
    undoLoop env U n st = replayLines env ((U.take n).reverse.flatten) st := by
  induction n generalizing st with
  | zero => simp [undoLoop, replayLines]
  | succ i ih =>
    have hi : i < U.length := hn
    have hstep : undoLoop env U (i + 1) st
        = undoLoop env U i (replayLines env (U.getD i []) st) := by
      have hdef : undoLoop env U (i + 1) st
          = if (U.getD i []).length = 0 then undoLoop env U i st
            else undoLoop env U i (replayLines env (U.getD i []) st) := rfl
      by_cases hlen : (U.getD i []).length = 0
      · have hnil : U.getD i [] = [] := List.length_eq_zero.mp hlen
        rw [hdef, if_pos hlen, hnil]
        rfl
      · rw [hdef, if_neg hlen]
    have htake : U.take (i + 1) = U.take i ++ [U.getD i []] := by
      rw [List.take_succ]
      simp [List.getD, List.getElem?_eq_getElem hi]
    rw [hstep, ih (Nat.le_of_lt hi), htake]
    simp [replayLines_eq, runCmds_append]

theorem undoLoop_all (env : Env σ) (U : List (List CmdLine)) (st : σ × List Action) :
    undoLoop env U U.length st
      = (runCmds env st.1 U.reverse.flatten, st.2 ++ U.reverse.flatten.map Action.ExecWithLock) := by
  rw [undoLoop_eq env U U.length (Nat.le_refl _), List.take_length, replayLines_eq]

/-- On the abort path `ExecMulti` returns, and this is everything it did. -/
theorem abort_path_outcome (env : Env σ) (s : σ) (batch : List CmdLine) (k : Nat)
    (hplan : ∀ l ∈ batch, plannable env l = true)
    (hk : k < batch.length)
    (hok : ∀ i, i < k → IsErrorReply (replyAt env s batch i) = false)
    (hfail : IsErrorReply (replyAt env s batch k) = true) :
    ∃ w r, ExecMulti env s batch = .ok
      ⟨runCmds env s
          (batch.take (k + 1) ++ ((List.range k).map (undoAt env s batch)).reverse.flatten),
        Reply.err "EXECABORT Transaction discarded because of previous errors.",
        Action.RWLocks w r :: ((batch.take (k + 1)).flatMap forwardTrace ++
          (((List.range k).map (undoAt env s batch)).reverse.flatten).map Action.ExecWithLock)
          ++ [Action.RWUnLocks w r]⟩ := by
  obtain ⟨⟨w, r⟩, hkeys⟩ := planLoop_ok env batch hplan [] []
  refine ⟨w, r, ?_⟩
  simp only [ExecMulti, hkeys]
  rw [execLoop_abort env batch k _ hk hok hfail]
  simp only [Bool.not_true, Bool.false_eq_true, if_false, List.nil_append]
  rw [undoLoop_all]
  simp [undoLogsOf_take env s batch k (Nat.le_of_lt hk), runCmds_append]

/-- On the success path `ExecMulti` returns, and this is everything it did. -/
theorem success_path_outcome (env : Env σ) (s : σ) (batch : List CmdLine)
    (hplan : ∀ l ∈ batch, plannable env l = true)
    (hok : ∀ i, i < batch.length → IsErrorReply (replyAt env s batch i) = false) :
    ∃ w r, ExecMulti env s batch = .ok
      ⟨runCmds env s batch,
        Reply.multiRaw ((List.range batch.length).map (replyAt env s batch)),
        Action.RWLocks w r :: batch.flatMap forwardTrace ++ [Action.RWUnLocks w r]⟩ := by
  obtain ⟨⟨w, r⟩, hkeys⟩ := planLoop_ok env batch hplan [] []
  refine ⟨w, r, ?_⟩
  have hrep := repliesOf_take env s batch batch.length (Nat.le_refl _)
  rw [List.take_length] at hrep
  simp only [ExecMulti, hkeys]
  rw [execLoop_ok env batch _ hok]
  simp [hrep]

theorem rollback_restores (env : Env σ) (s : σ) (batch : List CmdLine) (k : Nat)
    (hk : k ≤ batch.length)
    (hok : ∀ i, i < k → IsErrorReply (replyAt env s batch i) = false)
    (hundo : ∀ t l, IsErrorReply (env.ExecWithLock t l).2 = false →
      runCmds env (env.ExecWithLock t l).1 (env.GetUndoLogs t l) = t) :
    runCmds env (runCmds env s (batch.take k))
      ((List.range k).map (undoAt env s batch)).reverse.flatten = s := by
  induction k with
  | zero => simp [runCmds]
  | succ k ih =>
    have hk2 : k < batch.length := hk
    have hokk : IsErrorReply (env.ExecWithLock (runCmds env s (batch.take k))
        (batch.getD k [])).2 = false := hok k (Nat.lt_succ_self k)
    have hstep := hundo _ _ hokk
    rw [List.range_succ, List.map_append, List.reverse_append]
    simp only [List.map_cons, List.map_nil, List.reverse_cons, List.reverse_nil,
      List.nil_append, List.singleton_append, List.flatten_cons]
    rw [runCmds_append, runCmds_take_succ env s batch k hk2]
    have hu : undoAt env s batch k
        = env.GetUndoLogs (runCmds env s (batch.take k)) (batch.getD k []) := rfl
    rw [hu, hstep]
    exact ih (Nat.le_of_lt hk2) (fun i hi => hok i (Nat.lt_succ_of_lt hi))

theorem mem_undo_entries (env : Env σ) (s : σ) (batch : List CmdLine) (k : Nat)
    (l : CmdLine) (hl : l ∈ ((List.range k).map (undoAt env s batch)).reverse.flatten) :
    ∃ i, i < k ∧ l ∈ undoAt env s batch i := by
  simp only [List.mem_flatten, List.mem_reverse, List.mem_map, List.mem_range] at hl
  obtain ⟨e, ⟨i, hi, rfl⟩, hle⟩ := hl
  exact ⟨i, hi, hle⟩

theorem toyEnv_error_unchanged (t : Int) (l : CmdLine) :
    IsErrorReply (toyEnv.ExecWithLock t l).2 = true → (toyEnv.ExecWithLock t l).1 = t := by
  simp only [toyEnv, toyExec]
  split <;> simp [IsErrorReply]

theorem toyEnv_undo_restores (t : Int) (l : CmdLine) :
    IsErrorReply (toyEnv.ExecWithLock t l).2 = false →
      runCmds toyEnv (toyEnv.ExecWithLock t l).1 (toyEnv.GetUndoLogs t l) = t := by
  simp only [toyEnv, toyExec, toyUndo]
  split <;> simp [IsErrorReply, runCmds, toyExec]

/-! ## The batch executor -/

/-- C1 (atomicity of `ExecMulti`): for a batch the planning loop accepts, whose
command `k` (from 0) is the first whose execution returns an error reply, if an
error reply leaves the keyspace unchanged and the undo entry captured before a
succeeding command restores, on the state the command produced, the state it
started from, then `ExecMulti` returns and the keyspace is the one it started
with. -/
theorem ExecMulti_atomic (env : Env σ) (s : σ) (batch : List CmdLine) (k : Nat)
    (hplan : ∀ l ∈ batch, plannable env l = true)
    (hk : k < batch.length)
    (hok : ∀ i, i < k → IsErrorReply (replyAt env s batch i) = false)
    (hfail : IsErrorReply (replyAt env s batch k) = true)
    (herr : ∀ t l, IsErrorReply (env.ExecWithLock t l).2 = true →
      (env.ExecWithLock t l).1 = t)
    (hundo : ∀ t l, IsErrorReply (env.ExecWithLock t l).2 = false →
      runCmds env (env.ExecWithLock t l).1 (env.GetUndoLogs t l) = t) :
    ∃ out, ExecMulti env s batch = .ok out ∧ out.db = s := by
  obtain ⟨w, r, h⟩ := abort_path_outcome env s batch k hplan hk hok hfail
  refine ⟨_, h, ?_⟩
  show runCmds env s (batch.take (k + 1) ++ _) = s
  have hfail2 : IsErrorReply (env.ExecWithLock (runCmds env s (batch.take k))
      (batch.getD k [])).2 = true := hfail
  rw [runCmds_append, runCmds_take_succ env s batch k hk, herr _ _ hfail2]
  exact rollback_restores env s batch k (Nat.le_of_lt hk) hok hundo

/-- The counter after `incr`, `incr` and a failing `lpush` is the counter before. -/
theorem ExecMulti_atomic_witness :
    ∃ out, ExecMulti toyEnv 5 [["incr", "a"], ["incr", "a"], ["lpush", "a", "x"], ["get", "a"]]
      = .ok out ∧ out.db = 5 :=
  ExecMulti_atomic toyEnv 5 [["incr", "a"], ["incr", "a"], ["lpush", "a", "x"], ["get", "a"]] 2
    (by decide) (by decide) (by decide) (by decide) toyEnv_error_unchanged toyEnv_undo_restores

/-- C2 (success path of `ExecMulti`): for a batch of `N` lines the planning loop
accepts, none of whose executions returns an error reply, `ExecMulti` returns
the multi-reply of exactly `N` results, result `i` being the reply of command
`i` on the keyspace left by the commands before it; the final keyspace is the
one after all `N` in order, and between the lock and the unlock the actions are
exactly the capture and the execution of each command in queue order. -/
theorem ExecMulti_success (env : Env σ) (s : σ) (batch : List CmdLine)
    (hplan : ∀ l ∈ batch, plannable env l = true)
    (hok : ∀ i, i < batch.length → IsErrorReply (replyAt env s batch i) = false) :
    ∃ out w r, ExecMulti env s batch = .ok out ∧
      out.reply = Reply.multiRaw ((List.range batch.length).map (replyAt env s batch)) ∧
      ((List.range batch.length).map (replyAt env s batch)).length = batch.length ∧
      out.db = runCmds env s batch ∧
      out.trace = Action.RWLocks w r :: batch.flatMap forwardTrace ++ [Action.RWUnLocks w r] := by
  obtain ⟨w, r, h⟩ := success_path_outcome env s batch hplan hok
  exact ⟨_, w, r, h, rfl, by simp, rfl, rfl⟩

/-- Three succeeding commands on the counter. -/
theorem ExecMulti_success_witness :
    ∃ out w r, ExecMulti toyEnv 5 [["incr", "a"], ["get", "a"], ["decr", "a"]] = .ok out ∧
      out.reply = Reply.multiRaw ((List.range 3).map
        (replyAt toyEnv 5 [["incr", "a"], ["get", "a"], ["decr", "a"]])) ∧
      ((List.range 3).map
        (replyAt toyEnv 5 [["incr", "a"], ["get", "a"], ["decr", "a"]])).length = 3 ∧
      out.db = runCmds toyEnv 5 [["incr", "a"], ["get", "a"], ["decr", "a"]] ∧
      out.trace = Action.RWLocks w r ::
        [["incr", "a"], ["get", "a"], ["decr", "a"]].flatMap forwardTrace
          ++ [Action.RWUnLocks w r] :=
  ExecMulti_success toyEnv 5 [["incr", "a"], ["get", "a"], ["decr", "a"]]
    (by decide) (by decide)

/-- C3 (abort path of `ExecMulti`): for a batch the planning loop accepts, whose
command `k` (from 0) is the first whose execution returns an error reply,
`ExecMulti` returns the single EXECABORT error reply; the forward steps between
the lock and the unlock are those of commands `0..k` only, and every line
executed after them is a line of an undo entry of a command before `k`. -/
theorem ExecMulti_abort (env : Env σ) (s : σ) (batch : List CmdLine) (k : Nat)
    (hplan : ∀ l ∈ batch, plannable env l = true)
    (hk : k < batch.length)
    (hok : ∀ i, i < k → IsErrorReply (replyAt env s batch i) = false)
    (hfail : IsErrorReply (replyAt env s batch k) = true) :
    ∃ (out : Outcome σ) (w r : List String) (comp : List CmdLine),
      ExecMulti env s batch = .ok out ∧
      out.reply = Reply.err "EXECABORT Transaction discarded because of previous errors." ∧
      IsErrorReply out.reply = true ∧
      out.trace = Action.RWLocks w r :: ((batch.take (k + 1)).flatMap forwardTrace ++
        comp.map Action.ExecWithLock) ++ [Action.RWUnLocks w r] ∧
      ∀ l ∈ comp, ∃ i, i < k ∧ l ∈ undoAt env s batch i := by
  obtain ⟨w, r, h⟩ := abort_path_outcome env s batch k hplan hk hok hfail
  exact ⟨_, w, r, _, h, rfl, rfl, rfl, mem_undo_entries env s batch k⟩

/-- The batch `incr`, `incr`, failing `lpush`, `get` aborts at command 2. -/
theorem ExecMulti_abort_witness :
    ∃ (out : Outcome Int) (w r : List String) (comp : List CmdLine),
      ExecMulti toyEnv 5 [["incr", "a"], ["incr", "a"], ["lpush", "a", "x"], ["get", "a"]]
        = .ok out ∧
      out.reply = Reply.err "EXECABORT Transaction discarded because of previous errors." ∧
      IsErrorReply out.reply = true ∧
      out.trace = Action.RWLocks w r ::
        (([["incr", "a"], ["incr", "a"], ["lpush", "a", "x"], ["get", "a"]].take 3).flatMap
          forwardTrace ++ comp.map Action.ExecWithLock) ++ [Action.RWUnLocks w r] ∧
      ∀ l ∈ comp, ∃ i, i < 2 ∧
        l ∈ undoAt toyEnv 5 [["incr", "a"], ["incr", "a"], ["lpush", "a", "x"], ["get", "a"]] i :=
  ExecMulti_abort toyEnv 5 [["incr", "a"], ["incr", "a"], ["lpush", "a", "x"], ["get", "a"]] 2
    (by decide) (by decide) (by decide) (by decide)

/-- C4 (reverse-order compensation in `ExecMulti`): when the batch aborts at
command `k` (from 0), the actions after the forward steps of commands `0..k`
are exactly the executions of the undo entries of commands `k-1, ..., 0` in
that order, each entry the one `GetUndoLogs` returned on the keyspace
immediately before its command ran, the lines of an entry in their listed
order; the entry of the failed command `k` is not among them, and the final
keyspace is the one these executions leave. -/
theorem ExecMulti_reverse_compensation (env : Env σ) (s : σ) (batch : List CmdLine) (k : Nat)
    (hplan : ∀ l ∈ batch, plannable env l = true)
    (hk : k < batch.length)
    (hok : ∀ i, i < k → IsErrorReply (replyAt env s batch i) = false)
    (hfail : IsErrorReply (replyAt env s batch k) = true) :
    ∃ out w r, ExecMulti env s batch = .ok out ∧
      out.trace = Action.RWLocks w r :: ((batch.take (k + 1)).flatMap forwardTrace ++
        (((List.range k).map (undoAt env s batch)).reverse.flatten).map Action.ExecWithLock)
        ++ [Action.RWUnLocks w r] ∧
      out.db = runCmds env (runCmds env s (batch.take (k + 1)))
        ((List.range k).map (undoAt env s batch)).reverse.flatten := by
  obtain ⟨w, r, h⟩ := abort_path_outcome env s batch k hplan hk hok hfail
  exact ⟨_, w, r, h, rfl, runCmds_append env s _ _⟩

/-- The undo of the second `incr` is replayed before the undo of `decr`. -/
theorem ExecMulti_reverse_compensation_witness :
    ∃ out w r,
      ExecMulti toyEnv 5 [["decr", "a"], ["get", "a"], ["incr", "b"], ["lpush", "a", "x"]]
        = .ok out ∧
      out.trace = Action.RWLocks w r ::
        (([["decr", "a"], ["get", "a"], ["incr", "b"], ["lpush", "a", "x"]].take 4).flatMap
          forwardTrace ++
        (((List.range 3).map
          (undoAt toyEnv 5 [["decr", "a"], ["get", "a"], ["incr", "b"], ["lpush", "a", "x"]])
          ).reverse.flatten).map Action.ExecWithLock) ++ [Action.RWUnLocks w r] ∧
      out.db = runCmds toyEnv
        (runCmds toyEnv 5
          ([["decr", "a"], ["get", "a"], ["incr", "b"], ["lpush", "a", "x"]].take 4))
        ((List.range 3).map
          (undoAt toyEnv 5 [["decr", "a"], ["get", "a"], ["incr", "b"], ["lpush", "a", "x"]])
          ).reverse.flatten :=
  ExecMulti_reverse_compensation toyEnv 5
    [["decr", "a"], ["get", "a"], ["incr", "b"], ["lpush", "a", "x"]] 3
    (by decide) (by decide) (by decide) (by decide)

/-! ## The session operations -/

theorem ExecMulti_returns (env : Env σ) (s : σ) (batch : List CmdLine)
    (hplan : ∀ l ∈ batch, plannable env l = true) :
    ∃ out, ExecMulti env s batch = .ok out := by
  obtain ⟨⟨w, r⟩, hkeys⟩ := planLoop_ok env batch hplan [] []
  simp only [ExecMulti, hkeys]
  split
  · exact ⟨_, rfl⟩
  · exact ⟨_, rfl⟩

theorem EnqueueCmd_unknown (env : Env σ) (db : σ) (conn : Session) (name : String)
    (args : List String) (htab : env.cmdTable (env.toLower name) = none) :
    EnqueueCmd env db conn (name :: args) = .ok ⟨db, conn,
      Reply.err ("ERR unknown command \x27" ++ env.toLower name ++ "\x27"), []⟩ := by
  simp [EnqueueCmd, htab]

theorem EnqueueCmd_denylisted (env : Env σ) (db : σ) (conn : Session) (name : String)
    (args : List String) (cmd : command) (htab : env.cmdTable (env.toLower name) = some cmd)
    (hden : env.toLower name ∈ forbiddenInMulti) :
    EnqueueCmd env db conn (name :: args) = .ok ⟨db, conn,
      Reply.err ("ERR command \x27" ++ env.toLower name ++ "\x27 cannot be used in MULTI"),
      []⟩ := by
  simp [EnqueueCmd, htab, hden]

theorem EnqueueCmd_no_prepare (env : Env σ) (db : σ) (conn : Session) (name : String)
    (args : List String) (cmd : command) (htab : env.cmdTable (env.toLower name) = some cmd)
    (hden : env.toLower name ∉ forbiddenInMulti) (hprep : cmd.prepare = none) :
    EnqueueCmd env db conn (name :: args) = .ok ⟨db, conn,
      Reply.err ("ERR command \x27" ++ env.toLower name ++ "\x27 cannot be used in MULTI"),
      []⟩ := by
  simp [EnqueueCmd, htab, hden, hprep]

theorem EnqueueCmd_wrong_arity (env : Env σ) (db : σ) (conn : Session) (name : String)
    (args : List String) (cmd : command) (prepare : List String → List String × List String)
    (htab : env.cmdTable (env.toLower name) = some cmd)
    (hden : env.toLower name ∉ forbiddenInMulti) (hprep : cmd.prepare = some prepare)
    (har : env.validateArity cmd.arity (name :: args) = false) :
    EnqueueCmd env db conn (name :: args) = .ok ⟨db, conn,
      Reply.argNumErr (env.toLower name), []⟩ := by
  simp [EnqueueCmd, htab, hden, hprep, har]

theorem EnqueueCmd_accepts (env : Env σ) (db : σ) (conn : Session) (name : String)
    (args : List String) (cmd : command) (prepare : List String → List String × List String)
    (htab : env.cmdTable (env.toLower name) = some cmd)
    (hden : env.toLower name ∉ forbiddenInMulti) (hprep : cmd.prepare = some prepare)
    (har : env.validateArity cmd.arity (name :: args) = true) :
    EnqueueCmd env db conn (name :: args) = .ok
      ⟨db, ⟨conn.multiState, conn.queue ++ [name :: args]⟩, Reply.queued, []⟩ := by
  simp [EnqueueCmd, htab, hden, hprep, har, Session.EnqueueCmd]

/-- C5 (admission purity of `EnqueueCmd`): on a non-empty line, a name absent
from the command table gives the unknown-command error; otherwise a denylisted
name gives the cannot-be-used-in-MULTI error; otherwise a descriptor without a
prepare function gives the same error; otherwise a line the arity rule refuses
gives the wrong-number-of-arguments error; in each case the session (buffer
and flag) and the keyspace are returned unchanged. -/
theorem EnqueueCmd_rejects (env : Env σ) (db : σ) (conn : Session) (name : String)
    (args : List String) :
    (env.cmdTable (env.toLower name) = none →
      EnqueueCmd env db conn (name :: args) = .ok ⟨db, conn,
        Reply.err ("ERR unknown command \x27" ++ env.toLower name ++ "\x27"), []⟩) ∧
    (∀ cmd, env.cmdTable (env.toLower name) = some cmd →
      env.toLower name ∈ forbiddenInMulti →
      EnqueueCmd env db conn (name :: args) = .ok ⟨db, conn,
        Reply.err ("ERR command \x27" ++ env.toLower name ++ "\x27 cannot be used in MULTI"),
        []⟩) ∧
    (∀ cmd, env.cmdTable (env.toLower name) = some cmd →
      env.toLower name ∉ forbiddenInMulti → cmd.prepare = none →
      EnqueueCmd env db conn (name :: args) = .ok ⟨db, conn,
        Reply.err ("ERR command \x27" ++ env.toLower name ++ "\x27 cannot be used in MULTI"),
        []⟩) ∧
    (∀ cmd prepare, env.cmdTable (env.toLower name) = some cmd →
      env.toLower name ∉ forbiddenInMulti → cmd.prepare = some prepare →
      env.validateArity cmd.arity (name :: args) = false →
      EnqueueCmd env db conn (name :: args) = .ok ⟨db, conn,
        Reply.argNumErr (env.toLower name), []⟩) := by
  exact ⟨EnqueueCmd_unknown env db conn name args,
    EnqueueCmd_denylisted env db conn name args,
    EnqueueCmd_no_prepare env db conn name args,
    EnqueueCmd_wrong_arity env db conn name args⟩

/-- An unknown name, a denylisted name, a command without prepare and a line
of the wrong arity, each offered to a session that holds one staged line. -/
theorem EnqueueCmd_rejects_witness :
    EnqueueCmd toyEnv 5 ⟨true, [["incr", "a"]]⟩ ["NoSuch", "a"]
      = .ok ⟨5, ⟨true, [["incr", "a"]]⟩, Reply.err "ERR unknown command \x27nosuch\x27", []⟩ ∧
    EnqueueCmd toyEnv 5 ⟨true, [["incr", "a"]]⟩ ["FlushDB"]
      = .ok ⟨5, ⟨true, [["incr", "a"]]⟩,
          Reply.err "ERR command \x27flushdb\x27 cannot be used in MULTI", []⟩ ∧
    EnqueueCmd toyEnv 5 ⟨true, [["incr", "a"]]⟩ ["PING"]
      = .ok ⟨5, ⟨true, [["incr", "a"]]⟩,
          Reply.err "ERR command \x27ping\x27 cannot be used in MULTI", []⟩ ∧
    EnqueueCmd toyEnv 5 ⟨true, [["incr", "a"]]⟩ ["incr"]
      = .ok ⟨5, ⟨true, [["incr", "a"]]⟩, Reply.argNumErr "incr", []⟩ :=
  ⟨(EnqueueCmd_rejects toyEnv 5 ⟨true, [["incr", "a"]]⟩ "NoSuch" ["a"]).1 rfl,
   (EnqueueCmd_rejects toyEnv 5 ⟨true, [["incr", "a"]]⟩ "FlushDB" []).2.1 _ rfl (by decide),
   (EnqueueCmd_rejects toyEnv 5 ⟨true, [["incr", "a"]]⟩ "PING" []).2.2.1 _ rfl (by decide) rfl,
   (EnqueueCmd_rejects toyEnv 5 ⟨true, [["incr", "a"]]⟩ "incr" []).2.2.2 _ _ rfl (by decide)
     rfl rfl⟩

theorem EnqueueCmd_nonempty (env : Env σ) (db : σ) (conn : Session) (name : String)
    (args : List String) :
    ∃ out, EnqueueCmd env db conn (name :: args) = .ok out ∧
      (out.reply = Reply.queued ↔
        ∃ cmd, env.cmdTable (env.toLower name) = some cmd ∧
          env.toLower name ∉ forbiddenInMulti ∧ cmd.prepare.isSome = true ∧
          env.validateArity cmd.arity (name :: args) = true) ∧
      (out.reply = Reply.queued →
        out.conn.queue = conn.queue ++ [name :: args] ∧
        out.conn.multiState = conn.multiState ∧ out.db = db ∧ out.trace = []) := by
  cases htab : env.cmdTable (env.toLower name) with
  | none => exact ⟨_, EnqueueCmd_unknown env db conn name args htab, by simp, by simp⟩
  | some cmd =>
    by_cases hden : env.toLower name ∈ forbiddenInMulti
    · exact ⟨_, EnqueueCmd_denylisted env db conn name args cmd htab hden, by simp [hden],
        by simp⟩
    · cases hprep : cmd.prepare with
      | none =>
        exact ⟨_, EnqueueCmd_no_prepare env db conn name args cmd htab hden hprep,
          by simp [hprep], by simp⟩
      | some prepare =>
        cases har : env.validateArity cmd.arity (name :: args) with
        | false =>
          exact ⟨_, EnqueueCmd_wrong_arity env db conn name args cmd prepare htab hden hprep har,
            by simp [hprep, har], by simp⟩
        | true =>
          exact ⟨_, EnqueueCmd_accepts env db conn name args cmd prepare htab hden hprep har,
            by simp [hden, hprep, har], by simp⟩

/-- C6 (successful admission by `EnqueueCmd`): `EnqueueCmd` returns the queued
acknowledgement if and only if the line has a token 0 whose case-folded name is
in the command table and not in the denylist, the descriptor has a prepare
function and the arity rule accepts the line; whenever it does, the new buffer
is the old one with the line as given appended at the end, and the flag and
the keyspace are unchanged. -/
theorem EnqueueCmd_queued_iff (env : Env σ) (db : σ) (conn : Session) (cmdLine : CmdLine) :
    ((∃ out, EnqueueCmd env db conn cmdLine = .ok out ∧ out.reply = Reply.queued) ↔
      ∃ name args cmd, cmdLine = name :: args ∧
        env.cmdTable (env.toLower name) = some cmd ∧
        env.toLower name ∉ forbiddenInMulti ∧ cmd.prepare.isSome = true ∧
        env.validateArity cmd.arity cmdLine = true) ∧
    (∀ out, EnqueueCmd env db conn cmdLine = .ok out → out.reply = Reply.queued →
      out.conn.queue = conn.queue ++ [cmdLine] ∧
      out.conn.multiState = conn.multiState ∧ out.db = db ∧ out.trace = []) := by
  cases cmdLine with
  | nil =>
    constructor
    · constructor
      · rintro ⟨out, h, _⟩
        simp [EnqueueCmd] at h
      · rintro ⟨name, args, cmd, h, _⟩
        simp at h
    · intro out h
      simp [EnqueueCmd] at h
  | cons name args =>
    obtain ⟨out, h, hiff, hq⟩ := EnqueueCmd_nonempty env db conn name args
    constructor
    · constructor
      · rintro ⟨out2, h2, hr⟩
        have he : out2 = out := by
          rw [h] at h2
          exact (Except.ok.inj h2).symm
        subst he
        obtain ⟨cmd, hc⟩ := hiff.mp hr
        exact ⟨name, args, cmd, rfl, hc⟩
      · rintro ⟨name2, args2, cmd, hl, hc⟩
        obtain ⟨rfl, rfl⟩ := List.cons.inj hl
        exact ⟨out, h, hiff.mpr ⟨cmd, hc⟩⟩
    · intro out2 h2 hr
      have he : out2 = out := by
        rw [h] at h2
        exact (Except.ok.inj h2).symm
      subst he
      exact hq hr

/-- The line `InCr a` is queued behind `get a`, in its original case. -/
theorem EnqueueCmd_queued_iff_witness :
    ∃ out, EnqueueCmd toyEnv 5 ⟨true, [["get", "a"]]⟩ ["InCr", "a"] = .ok out ∧
      out.reply = Reply.queued ∧
      out.conn.queue = [["get", "a"], ["InCr", "a"]] ∧ out.conn.multiState = true := by
  obtain ⟨out, h, hr⟩ :=
    (EnqueueCmd_queued_iff toyEnv 5 ⟨true, [["get", "a"]]⟩ ["InCr", "a"]).1.mpr
      ⟨"InCr", ["a"], _, rfl, rfl, by decide, rfl, rfl⟩
  have hq := (EnqueueCmd_queued_iff toyEnv 5 ⟨true, [["get", "a"]]⟩ ["InCr", "a"]).2 out h hr
  exact ⟨out, h, hr, hq.1, hq.2.1⟩

/-- C7 (no nesting in `StartMulti`): with the flag already true `StartMulti`
returns the nested-MULTI error and leaves the flag and the buffer unchanged;
with the flag false it returns OK, sets the flag and leaves the buffer
unchanged. -/
theorem StartMulti_no_nesting (db : σ) (conn : Session) :
    (conn.multiState = true →
      StartMulti db conn = ⟨db, conn, Reply.err "ERR MULTI calls can not be nested", []⟩) ∧
    (conn.multiState = false →
      StartMulti db conn = ⟨db, ⟨true, conn.queue⟩, Reply.ok, []⟩) := by
  constructor
  · intro h
    simp [StartMulti, Session.InMultiState, h]
  · intro h
    simp [StartMulti, Session.InMultiState, Session.SetMultiState, h]

/-- A second `StartMulti` is refused; a first one on a fresh session is not. -/
theorem StartMulti_no_nesting_witness :
    StartMulti (5 : Int) ⟨true, [["incr", "a"]]⟩
      = ⟨5, ⟨true, [["incr", "a"]]⟩, Reply.err "ERR MULTI calls can not be nested", []⟩ ∧
    StartMulti (5 : Int) ⟨false, []⟩ = ⟨5, ⟨true, []⟩, Reply.ok, []⟩ :=
  ⟨(StartMulti_no_nesting (5 : Int) ⟨true, [["incr", "a"]]⟩).1 rfl,
   (StartMulti_no_nesting (5 : Int) ⟨false, []⟩).2 rfl⟩

/-- C8 (commit resets the session): for a session whose flag is true and whose
staged lines the planning loop accepts, `execMulti` returns; the batch it ran
is `ExecMulti` on exactly the pending buffer as it was at the call, and on
every path the session it leaves has the flag false and the buffer empty. -/
theorem execMulti_resets_session (env : Env σ) (db : σ) (conn : Session)
    (hin : conn.multiState = true)
    (hplan : ∀ l ∈ conn.queue, plannable env l = true) :
    ∃ out, ExecMulti env db conn.queue = .ok out ∧
      execMulti env db conn = .ok ⟨out.db, ⟨false, []⟩, out.reply, out.trace⟩ := by
  obtain ⟨out, h⟩ := ExecMulti_returns env db conn.queue hplan
  refine ⟨out, h, ?_⟩
  simp [execMulti, Session.InMultiState, Session.GetQueuedCmdLine, Session.SetMultiState,
    hin, h]

/-- A commit that aborts and a commit that succeeds both reset the session. -/
theorem execMulti_resets_session_witness :
    (∃ out, ExecMulti toyEnv 5 [["incr", "a"], ["lpush", "a", "x"]] = .ok out ∧
      execMulti toyEnv 5 ⟨true, [["incr", "a"], ["lpush", "a", "x"]]⟩
        = .ok ⟨out.db, ⟨false, []⟩, out.reply, out.trace⟩) ∧
    (∃ out, ExecMulti toyEnv 5 [["incr", "a"], ["get", "a"]] = .ok out ∧
      execMulti toyEnv 5 ⟨true, [["incr", "a"], ["get", "a"]]⟩
        = .ok ⟨out.db, ⟨false, []⟩, out.reply, out.trace⟩) :=
  ⟨execMulti_resets_session toyEnv 5 ⟨true, [["incr", "a"], ["lpush", "a", "x"]]⟩ rfl
     (by decide),
   execMulti_resets_session toyEnv 5 ⟨true, [["incr", "a"], ["get", "a"]]⟩ rfl (by decide)⟩

/-- C9 (commit or discard without an active transaction): with the flag false
`execMulti` and `DiscardMulti` each return their without-MULTI error, leave the
session and the keyspace unchanged and perform no keyspace or lock action. -/
theorem without_multi (env : Env σ) (db : σ) (conn : Session)
    (hout : conn.multiState = false) :
    execMulti env db conn = .ok ⟨db, conn, Reply.err "ERR EXEC without MULTI", []⟩ ∧
    DiscardMulti db conn = ⟨db, conn, Reply.err "ERR DISCARD without MULTI", []⟩ := by
  constructor
  · simp [execMulti, Session.InMultiState, hout]
  · simp [DiscardMulti, Session.InMultiState, hout]

/-- EXEC and DISCARD on a session that never began a transaction. -/
theorem without_multi_witness :
    execMulti toyEnv 5 ⟨false, [["incr", "a"]]⟩
      = .ok ⟨5, ⟨false, [["incr", "a"]]⟩, Reply.err "ERR EXEC without MULTI", []⟩ ∧
    DiscardMulti (5 : Int) ⟨false, [["incr", "a"]]⟩
      = ⟨5, ⟨false, [["incr", "a"]]⟩, Reply.err "ERR DISCARD without MULTI", []⟩ :=
  without_multi toyEnv 5 ⟨false, [["incr", "a"]]⟩ rfl

/-- C10 (discard clears state): with the flag true, `DiscardMulti` leaves the
buffer empty and the flag false, does not touch the keyspace, and a following
`StartMulti` then `execMulti` commits the empty batch: no command is executed,
whatever had been staged before. -/
theorem DiscardMulti_clears (env : Env σ) (db : σ) (conn : Session)
    (hin : conn.multiState = true) :
    (DiscardMulti db conn).conn = ⟨false, []⟩ ∧
    (DiscardMulti db conn).db = db ∧
    (DiscardMulti db conn).trace = [] ∧
    execMulti env (DiscardMulti db conn).db
        (StartMulti (DiscardMulti db conn).db (DiscardMulti db conn).conn).conn
      = .ok ⟨db, ⟨false, []⟩, Reply.multiRaw [],
          [Action.RWLocks [] [], Action.RWUnLocks [] []]⟩ := by
  have hd : DiscardMulti db conn = ⟨db, ⟨false, []⟩, Reply.queued, []⟩ := by
    simp [DiscardMulti, Session.InMultiState, Session.ClearQueuedCmds,
      Session.SetMultiState, hin]
  rw [hd]
  refine ⟨rfl, rfl, rfl, ?_⟩
  simp [StartMulti, execMulti, ExecMulti, planLoop, execLoop, Session.InMultiState,
    Session.SetMultiState, Session.GetQueuedCmdLine]

/-- Two staged lines are dropped and the next commit runs nothing. -/
theorem DiscardMulti_clears_witness :
    (DiscardMulti (5 : Int) ⟨true, [["incr", "a"], ["incr", "b"]]⟩).conn = ⟨false, []⟩ ∧
    (DiscardMulti (5 : Int) ⟨true, [["incr", "a"], ["incr", "b"]]⟩).db = 5 ∧
    (DiscardMulti (5 : Int) ⟨true, [["incr", "a"], ["incr", "b"]]⟩).trace = [] ∧
    execMulti toyEnv (DiscardMulti (5 : Int) ⟨true, [["incr", "a"], ["incr", "b"]]⟩).db
        (StartMulti (DiscardMulti (5 : Int) ⟨true, [["incr", "a"], ["incr", "b"]]⟩).db
          (DiscardMulti (5 : Int) ⟨true, [["incr", "a"], ["incr", "b"]]⟩).conn).conn
      = .ok ⟨5, ⟨false, []⟩, Reply.multiRaw [],
          [Action.RWLocks [] [], Action.RWUnLocks [] []]⟩ :=
  DiscardMulti_clears toyEnv 5 ⟨true, [["incr", "a"], ["incr", "b"]]⟩ rfl

/-! ## Sequences of session operations -/

theorem EnqueueCmd_session (env : Env σ) (db : σ) (conn : Session) (name : String)
    (args : List String) :
    ∃ out, EnqueueCmd env db conn (name :: args) = .ok out ∧ out.db = db ∧
      (out.conn = conn ∨
        (out.conn = ⟨conn.multiState, conn.queue ++ [name :: args]⟩ ∧
          plannable env (name :: args) = true)) := by
  cases htab : env.cmdTable (env.toLower name) with
  | none => exact ⟨_, EnqueueCmd_unknown env db conn name args htab, rfl, Or.inl rfl⟩
  | some cmd =>
    by_cases hden : env.toLower name ∈ forbiddenInMulti
    · exact ⟨_, EnqueueCmd_denylisted env db conn name args cmd htab hden, rfl, Or.inl rfl⟩
    · cases hprep : cmd.prepare with
      | none =>
        exact ⟨_, EnqueueCmd_no_prepare env db conn name args cmd htab hden hprep, rfl,
          Or.inl rfl⟩
      | some prepare =>
        cases har : env.validateArity cmd.arity (name :: args) with
        | false =>
          exact ⟨_, EnqueueCmd_wrong_arity env db conn name args cmd prepare htab hden hprep har,
            rfl, Or.inl rfl⟩
        | true =>
          exact ⟨_, EnqueueCmd_accepts env db conn name args cmd prepare htab hden hprep har,
            rfl, Or.inr ⟨rfl, by simp [plannable, htab, hprep]⟩⟩

theorem applyOp_keeps_invariant (env : Env σ) (st : σ × Session) (op : Op)
    (hinv : sessionInv st.2) (hq : ∀ l ∈ st.2.queue, plannable env l = true)
    (hguard : op.isEnqueue = true → st.2.multiState = true) :
    (∀ st1, applyOp env st op = .ok st1 →
      sessionInv st1.2 ∧ ∀ l ∈ st1.2.queue, plannable env l = true) ∧
    ((∀ l, op = Op.enqueue l → l ≠ []) → ∃ st1, applyOp env st op = .ok st1) := by
  obtain ⟨db, conn⟩ := st
  cases op with
  | start =>
    refine ⟨?_, fun _ => ⟨_, rfl⟩⟩
    intro st1 h
    have h1 : st1 = ((StartMulti db conn).db, (StartMulti db conn).conn) :=
      (Except.ok.inj h).symm
    subst h1
    cases hm : conn.multiState with
    | true =>
      have : StartMulti db conn = ⟨db, conn, Reply.err "ERR MULTI calls can not be nested", []⟩ := by
        simp [StartMulti, Session.InMultiState, hm]
      rw [this]
      exact ⟨hinv, hq⟩
    | false =>
      have : StartMulti db conn = ⟨db, ⟨true, conn.queue⟩, Reply.ok, []⟩ := by
        simp [StartMulti, Session.InMultiState, Session.SetMultiState, hm]
      rw [this]
      exact ⟨fun _ => rfl, hq⟩
  | enqueue l =>
    cases l with
    | nil =>
      refine ⟨?_, fun hne => absurd rfl (hne [] rfl)⟩
      intro st1 h
      simp [applyOp, EnqueueCmd] at h
    | cons name args =>
      obtain ⟨out, hout, _, hconn⟩ := EnqueueCmd_session env db conn name args
      have happ : applyOp env (db, conn) (Op.enqueue (name :: args)) = .ok (out.db, out.conn) := by
        simp [applyOp, hout]
      refine ⟨?_, fun _ => ⟨_, happ⟩⟩
      intro st1 h
      rw [happ] at h
      have h1 : st1 = (out.db, out.conn) := (Except.ok.inj h).symm
      subst h1
      rcases hconn with hc | ⟨hc, hp⟩
      · simp only [hc]
        exact ⟨hinv, hq⟩
      · simp only [hc]
        refine ⟨fun _ => hguard rfl, ?_⟩
        intro l2 hl2
        rcases List.mem_append.mp hl2 with h2 | h2
        · exact hq l2 h2
        · rw [List.mem_singleton.mp h2]
          exact hp
  | exec =>
    cases hm : conn.multiState with
    | false =>
      have hex : execMulti env db conn
          = .ok ⟨db, conn, Reply.err "ERR EXEC without MULTI", []⟩ := by
        simp [execMulti, Session.InMultiState, hm]
      have happ : applyOp env (db, conn) Op.exec = .ok (db, conn) := by
        simp [applyOp, hex]
      refine ⟨?_, fun _ => ⟨_, happ⟩⟩
      intro st1 h
      rw [happ] at h
      have h1 : st1 = (db, conn) := (Except.ok.inj h).symm
      subst h1
      exact ⟨hinv, hq⟩
    | true =>
      obtain ⟨out, hout⟩ := ExecMulti_returns env db conn.queue hq
      have hex : execMulti env db conn = .ok ⟨out.db, ⟨false, []⟩, out.reply, out.trace⟩ := by
        simp [execMulti, Session.InMultiState, Session.GetQueuedCmdLine,
          Session.SetMultiState, hm, hout]
      have happ : applyOp env (db, conn) Op.exec = .ok (out.db, ⟨false, []⟩) := by
        simp [applyOp, hex]
      refine ⟨?_, fun _ => ⟨_, happ⟩⟩
      intro st1 h
      rw [happ] at h
      have h1 : st1 = (out.db, ⟨false, []⟩) := (Except.ok.inj h).symm
      subst h1
      exact ⟨fun hne => absurd rfl hne, by simp⟩
  | discard =>
    refine ⟨?_, fun _ => ⟨_, rfl⟩⟩
    intro st1 h
    have h1 : st1 = ((DiscardMulti db conn).db, (DiscardMulti db conn).conn) :=
      (Except.ok.inj h).symm
    subst h1
    cases hm : conn.multiState with
    | false =>
      have : DiscardMulti db conn = ⟨db, conn, Reply.err "ERR DISCARD without MULTI", []⟩ := by
        simp [DiscardMulti, Session.InMultiState, hm]
      rw [this]
      exact ⟨hinv, hq⟩
    | true =>
      have : DiscardMulti db conn = ⟨db, ⟨false, []⟩, Reply.queued, []⟩ := by
        simp [DiscardMulti, Session.InMultiState, Session.ClearQueuedCmds,
          Session.SetMultiState, hm]
      rw [this]
      exact ⟨fun hne => absurd rfl hne, by simp⟩

theorem runOps_keeps_invariant (env : Env σ) (ops : List Op) (st : σ × Session)
    (hinv : sessionInv st.2) (hq : ∀ l ∈ st.2.queue, plannable env l = true)
    (hguard : enqueueOnlyInMulti env ops st = true) :
    (∀ st1, runOps env ops st = .ok st1 → sessionInv st1.2) ∧
    ((∀ l, Op.enqueue l ∈ ops → l ≠ []) → ∃ st1, runOps env ops st = .ok st1) := by
  induction ops generalizing st with
  | nil =>
    refine ⟨?_, fun _ => ⟨st, rfl⟩⟩
    intro st1 h
    have h1 : st1 = st := (Except.ok.inj h).symm
    subst h1
    exact hinv
  | cons op ops ih =>
    simp only [enqueueOnlyInMulti, Bool.and_eq_true, Bool.or_eq_true,
      Bool.not_eq_true'] at hguard
    obtain ⟨hg1, hg2⟩ := hguard
    have hg : op.isEnqueue = true → st.2.multiState = true := by
      intro he
      rcases hg1 with h | h
      · rw [he] at h
        exact absurd h (by simp)
      · exact h
    obtain ⟨hstep, hret⟩ := applyOp_keeps_invariant env st op hinv hq hg
    constructor
    · intro st1 h
      simp only [runOps] at h
      cases happ : applyOp env st op with
      | error p => simp [happ] at h
      | ok st2 =>
        simp only [happ] at h hg2
        exact (ih st2 (hstep st2 happ).1 (hstep st2 happ).2 hg2).1 st1 h
    · intro hne
      obtain ⟨st2, happ⟩ := hret (fun l hl => hne l (by simp [hl]))
      simp only [happ] at hg2
      obtain ⟨st1, h1⟩ := (ih st2 (hstep st2 happ).1 (hstep st2 happ).2 hg2).2
        (fun l hl => hne l (List.mem_cons_of_mem _ hl))
      exact ⟨st1, by simp [runOps, happ, h1]⟩

/-- C11 as stated fails: `EnqueueCmd` on a fresh session queues a valid line
although the flag is false. -/
theorem session_invariant_counterexample :
    ¬ ∀ (ops : List Op) (st : Int × Session),
        runOps toyEnv ops (5, ⟨false, []⟩) = .ok st → sessionInv st.2 := by
  intro h
  have h1 : sessionInv (⟨false, [["incr", "a"]]⟩ : Session) :=
    h [Op.enqueue ["incr", "a"]] (5, ⟨false, [["incr", "a"]]⟩) rfl
  exact absurd (h1 (by simp)) (by simp)

/-- C11 (session invariant, amended): starting from a fresh session, after any
finite sequence of `StartMulti`, `EnqueueCmd`, `execMulti` and `DiscardMulti`
in which `EnqueueCmd` is called only while the flag is true, the pending buffer
is non-empty only if the flag is true; and such a sequence runs to its end
whenever no empty line is offered to `EnqueueCmd`. -/
theorem session_invariant_guarded (env : Env σ) (db : σ) (ops : List Op)
    (hguard : enqueueOnlyInMulti env ops (db, ⟨false, []⟩) = true) :
    (∀ st, runOps env ops (db, ⟨false, []⟩) = .ok st → sessionInv st.2) ∧
    ((∀ l, Op.enqueue l ∈ ops → l ≠ []) →
      ∃ st, runOps env ops (db, ⟨false, []⟩) = .ok st) :=
  runOps_keeps_invariant env ops (db, ⟨false, []⟩) (fun hne => absurd rfl hne)
    (by simp) hguard

/-- A transaction staged and committed, one discarded, one left open. -/
theorem session_invariant_guarded_witness :
    ∃ st, runOps toyEnv
        [Op.start, Op.enqueue ["incr", "a"], Op.enqueue ["NoSuch"], Op.exec, Op.start,
          Op.enqueue ["get", "a"], Op.discard, Op.exec, Op.start, Op.enqueue ["InCr", "b"]]
        (5, ⟨false, []⟩) = .ok st ∧ sessionInv st.2 := by
  have h := session_invariant_guarded toyEnv 5
    [Op.start, Op.enqueue ["incr", "a"], Op.enqueue ["NoSuch"], Op.exec, Op.start,
      Op.enqueue ["get", "a"], Op.discard, Op.exec, Op.start, Op.enqueue ["InCr", "b"]]
    (by decide)
  obtain ⟨st, hst⟩ := h.2 (by simp)
  exact ⟨st, hst, h.1 st hst⟩

/-- C12 as stated fails: right after a successful `DiscardMulti`, with the flag
false and no `StartMulti`, `EnqueueCmd` queues a valid line. -/
theorem enqueue_after_discard_counterexample :
    (DiscardMulti (5 : Int) ⟨true, [["get", "a"]]⟩).conn = ⟨false, []⟩ ∧
    EnqueueCmd toyEnv 5 (DiscardMulti (5 : Int) ⟨true, [["get", "a"]]⟩).conn ["incr", "a"]
      = .ok ⟨5, ⟨false, [["incr", "a"]]⟩, Reply.queued, []⟩ :=
  ⟨rfl, rfl⟩

/-- C12 (enqueue and the flag, amended): for a session whose flag is false and
a valid command line, `EnqueueCmd` returns the queued acknowledgement and
appends the line both without and after a fresh `StartMulti`; it does not
consult the flag and leaves it as it was. -/
theorem EnqueueCmd_ignores_flag (env : Env σ) (db : σ) (conn : Session) (name : String)
    (args : List String) (cmd : command) (prepare : List String → List String × List String)
    (hout : conn.multiState = false)
    (htab : env.cmdTable (env.toLower name) = some cmd)
    (hden : env.toLower name ∉ forbiddenInMulti) (hprep : cmd.prepare = some prepare)
    (har : env.validateArity cmd.arity (name :: args) = true) :
    EnqueueCmd env db conn (name :: args)
      = .ok ⟨db, ⟨false, conn.queue ++ [name :: args]⟩, Reply.queued, []⟩ ∧
    EnqueueCmd env db (StartMulti db conn).conn (name :: args)
      = .ok ⟨db, ⟨true, conn.queue ++ [name :: args]⟩, Reply.queued, []⟩ := by
  have hs : StartMulti db conn = ⟨db, ⟨true, conn.queue⟩, Reply.ok, []⟩ := by
    simp [StartMulti, Session.InMultiState, Session.SetMultiState, hout]
  constructor
  · rw [EnqueueCmd_accepts env db conn name args cmd prepare htab hden hprep har, hout]
  · rw [hs, EnqueueCmd_accepts env db _ name args cmd prepare htab hden hprep har]

/-- The line `incr a` is queued on a session that never began a transaction. -/
theorem EnqueueCmd_ignores_flag_witness :
    EnqueueCmd toyEnv 5 ⟨false, []⟩ ["incr", "a"]
      = .ok ⟨5, ⟨false, [] ++ [["incr", "a"]]⟩, Reply.queued, []⟩ ∧
    EnqueueCmd toyEnv 5 (StartMulti (5 : Int) ⟨false, []⟩).conn ["incr", "a"]
      = .ok ⟨5, ⟨true, [] ++ [["incr", "a"]]⟩, Reply.queued, []⟩ :=
  EnqueueCmd_ignores_flag toyEnv 5 ⟨false, []⟩ "incr" ["a"] _ _ rfl rfl (by decide) rfl rfl

/-! ## Locks and planning -/

theorem execLoop_trace (env : Env σ) (cs : List CmdLine) (st : Run σ) :
    ∃ mid, (execLoop env cs st).trace = st.trace ++ mid ∧
      ∀ a ∈ mid, isKeyspaceAction a = true := by
  induction cs generalizing st with
  | nil => exact ⟨[], by simp [execLoop], by simp⟩
  | cons c cs ih =>
    by_cases herr : IsErrorReply (env.ExecWithLock st.db c).2 = true
    · refine ⟨forwardTrace c, by simp [execLoop, herr, forwardTrace], ?_⟩
      intro a ha
      simp only [forwardTrace, List.mem_cons, List.mem_singleton, List.not_mem_nil,
        or_false] at ha
      rcases ha with rfl | rfl <;> rfl
    · obtain ⟨mid, hmid, hall⟩ := ih
        { db := (env.ExecWithLock st.db c).1,
          results := st.results ++ [(env.ExecWithLock st.db c).2], aborted := st.aborted,
          undoCmdLines := st.undoCmdLines ++ [env.GetUndoLogs st.db c],
          trace := st.trace ++ [Action.GetUndoLogs c, Action.ExecWithLock c] }
      have herr2 : IsErrorReply (env.ExecWithLock st.db c).2 = false := by simpa using herr
      refine ⟨forwardTrace c ++ mid, ?_, ?_⟩
      · simp only [execLoop, herr2, Bool.false_eq_true, if_false]
        rw [hmid]
        simp [forwardTrace]
      · intro a ha
        rcases List.mem_append.mp ha with h | h
        · simp only [forwardTrace, List.mem_cons, List.mem_singleton, List.not_mem_nil,
            or_false] at h
          rcases h with rfl | rfl <;> rfl
        · exact hall a h

theorem ExecMulti_trace_shape (env : Env σ) (s : σ) (batch : List CmdLine)
    (w r : List String) (hkeys : planLoop env batch [] [] = .ok (w, r)) :
    ∃ out mid, ExecMulti env s batch = .ok out ∧
      out.trace = Action.RWLocks w r :: mid ++ [Action.RWUnLocks w r] ∧
      ∀ a ∈ mid, isKeyspaceAction a = true := by
  obtain ⟨mid, hmid, hall⟩ := execLoop_trace env batch
    { db := s, results := [], aborted := false, undoCmdLines := [],
      trace := [Action.RWLocks w r] }
  generalize hrun : execLoop env batch
    { db := s, results := [], aborted := false, undoCmdLines := [],
      trace := [Action.RWLocks w r] } = run at hmid
  have hE : ExecMulti env s batch =
      if !run.aborted then
        .ok ⟨run.db, Reply.multiRaw run.results,
          run.trace ++ [Action.RWUnLocks w r]⟩
      else
        .ok ⟨(undoLoop env run.undoCmdLines run.undoCmdLines.length (run.db, run.trace)).1,
          Reply.err "EXECABORT Transaction discarded because of previous errors.",
          (undoLoop env run.undoCmdLines run.undoCmdLines.length (run.db, run.trace)).2
            ++ [Action.RWUnLocks w r]⟩ := by
    simp only [ExecMulti, hkeys, hrun]
  rw [hE]
  cases hab : run.aborted with
  | false => exact ⟨_, mid, rfl, by simp [hmid], hall⟩
  | true =>
    refine ⟨_, mid ++ (run.undoCmdLines.reverse.flatten).map Action.ExecWithLock, rfl, ?_, ?_⟩
    · rw [undoLoop_all]
      simp [hmid]
    · intro a ha
      rcases List.mem_append.mp ha with h | h
      · exact hall a h
      · obtain ⟨l, _, rfl⟩ := List.mem_map.mp h
        rfl

theorem planLoop_keys (env : Env σ) (cs : List CmdLine)
    (hplan : ∀ l ∈ cs, plannable env l = true) (w r : List String) :
    planLoop env cs w r = .ok (w ++ cs.flatMap (fun l => (keysOf env l).1),
      r ++ cs.flatMap (fun l => (keysOf env l).2)) := by
  induction cs generalizing w r with
  | nil => simp [planLoop]
  | cons c cs ih =>
    have hc := hplan c (List.mem_cons_self _ _)
    have hcs : ∀ l ∈ cs, plannable env l = true :=
      fun l hl => hplan l (List.mem_cons_of_mem _ hl)
    cases c with
    | nil => simp [plannable] at hc
    | cons name args =>
      simp only [plannable] at hc
      cases htab : env.cmdTable (env.toLower name) with
      | none => simp [htab] at hc
      | some cmd =>
        simp only [htab] at hc
        cases hp : cmd.prepare with
        | none => simp [hp] at hc
        | some prepare =>
          simp only [planLoop, htab, hp]
          rw [ih hcs]
          simp [keysOf, htab, hp]

/-- C13 (locks bracket the whole batch): for a batch the planning loop
accepts, on every path the trace of `ExecMulti` is `RWLocks` on the planned key
lists, then only command executions, undo captures and compensating
executions, then `RWUnLocks` on the same two key lists. -/
theorem ExecMulti_locks_bracket (env : Env σ) (s : σ) (batch : List CmdLine)
    (hplan : ∀ l ∈ batch, plannable env l = true) :
    ∃ out w r mid, ExecMulti env s batch = .ok out ∧
      planLoop env batch [] [] = .ok (w, r) ∧
      out.trace = Action.RWLocks w r :: mid ++ [Action.RWUnLocks w r] ∧
      ∀ a ∈ mid, isKeyspaceAction a = true := by
  obtain ⟨⟨w, r⟩, hkeys⟩ := planLoop_ok env batch hplan [] []
  obtain ⟨out, mid, hout, htr, hall⟩ := ExecMulti_trace_shape env s batch w r hkeys
  exact ⟨out, w, r, mid, hout, hkeys, htr, hall⟩

/-- The bracket on a batch that aborts and on a batch that succeeds. -/
theorem ExecMulti_locks_bracket_witness :
    (∃ out w r mid,
      ExecMulti toyEnv 5 [["incr", "a"], ["lpush", "b", "x"], ["get", "c"]] = .ok out ∧
      planLoop toyEnv [["incr", "a"], ["lpush", "b", "x"], ["get", "c"]] [] [] = .ok (w, r) ∧
      out.trace = Action.RWLocks w r :: mid ++ [Action.RWUnLocks w r] ∧
      ∀ a ∈ mid, isKeyspaceAction a = true) ∧
    (∃ out w r mid,
      ExecMulti toyEnv 5 [["incr", "a"], ["get", "c"]] = .ok out ∧
      planLoop toyEnv [["incr", "a"], ["get", "c"]] [] [] = .ok (w, r) ∧
      out.trace = Action.RWLocks w r :: mid ++ [Action.RWUnLocks w r] ∧
      ∀ a ∈ mid, isKeyspaceAction a = true) :=
  ⟨ExecMulti_locks_bracket toyEnv 5 [["incr", "a"], ["lpush", "b", "x"], ["get", "c"]]
     (by decide),
   ExecMulti_locks_bracket toyEnv 5 [["incr", "a"], ["get", "c"]] (by decide)⟩

/-- C14 (key-set planning in `ExecMulti`): for a batch the planning loop
accepts, the write-key list and the read-key list are the concatenations, in
queue order and with duplicates kept, of the write and read lists the prepare
function of each line returns on the line without token 0; they are the lists
given to `RWLocks` and `RWUnLocks`, and they are the same for every keyspace
state. -/
theorem ExecMulti_lock_keys (env : Env σ) (batch : List CmdLine)
    (hplan : ∀ l ∈ batch, plannable env l = true) :
    planLoop env batch [] [] = .ok (batch.flatMap (fun l => (keysOf env l).1),
      batch.flatMap (fun l => (keysOf env l).2)) ∧
    (∀ s : σ, ∃ out mid, ExecMulti env s batch = .ok out ∧
      out.trace = Action.RWLocks (batch.flatMap (fun l => (keysOf env l).1))
          (batch.flatMap (fun l => (keysOf env l).2)) :: mid ++
        [Action.RWUnLocks (batch.flatMap (fun l => (keysOf env l).1))
          (batch.flatMap (fun l => (keysOf env l).2))]) ∧
    (∀ name args cmd prepare, env.cmdTable (env.toLower name) = some cmd →
      cmd.prepare = some prepare → keysOf env (name :: args) = prepare args) := by
  have hkeys := planLoop_keys env batch hplan [] []
  simp only [List.nil_append] at hkeys
  refine ⟨hkeys, ?_, ?_⟩
  · intro s
    obtain ⟨out, mid, hout, htr, _⟩ := ExecMulti_trace_shape env s batch _ _ hkeys
    exact ⟨out, mid, hout, htr⟩
  · intro name args cmd prepare htab hp
    simp [keysOf, htab, hp]

/-- The key `a` is planned twice as a write key and once as a read key. -/
theorem ExecMulti_lock_keys_witness :
    planLoop toyEnv [["incr", "a"], ["GET", "a", "z"], ["decr", "a"], ["lpush", "b", "x"]] [] []
      = .ok (["a", "a", "b"], ["a"]) ∧
    ∀ s : Int, ∃ out mid,
      ExecMulti toyEnv s [["incr", "a"], ["GET", "a", "z"], ["decr", "a"], ["lpush", "b", "x"]]
        = .ok out ∧
      out.trace = Action.RWLocks ["a", "a", "b"] ["a"] :: mid ++
        [Action.RWUnLocks ["a", "a", "b"] ["a"]] :=
  ⟨(ExecMulti_lock_keys toyEnv
      [["incr", "a"], ["GET", "a", "z"], ["decr", "a"], ["lpush", "b", "x"]] (by decide)).1,
   (ExecMulti_lock_keys toyEnv
      [["incr", "a"], ["GET", "a", "z"], ["decr", "a"], ["lpush", "b", "x"]] (by decide)).2.1⟩

/-- C15 (empty commit): for a session whose flag is true and whose buffer is
empty, on every keyspace state `execMulti` returns the multi-reply of zero
results; its only actions are `RWLocks` and `RWUnLocks` on empty key lists, and
the keyspace is unchanged. -/
theorem execMulti_empty (env : Env σ) (db : σ) (conn : Session)
    (hin : conn.multiState = true) (hq : conn.queue = []) :
    execMulti env db conn = .ok ⟨db, ⟨false, []⟩, Reply.multiRaw [],
      [Action.RWLocks [] [], Action.RWUnLocks [] []]⟩ := by
  simp [execMulti, ExecMulti, planLoop, execLoop, Session.InMultiState,
    Session.SetMultiState, Session.GetQueuedCmdLine, hin, hq]

/-- EXEC right after MULTI on the counter keyspace. -/
theorem execMulti_empty_witness :
    execMulti toyEnv 5 ⟨true, []⟩ = .ok ⟨5, ⟨false, []⟩, Reply.multiRaw [],
      [Action.RWLocks [] [], Action.RWUnLocks [] []]⟩ :=
  execMulti_empty toyEnv 5 ⟨true, []⟩ rfl rfl

/-- C17 (discard acknowledgement): on a session in a transaction with one
staged line, `DiscardMulti` replies with the queued acknowledgement of
`EnqueueCmd`, which is not the OK that `StartMulti` returns on success. -/
theorem DiscardMulti_replies_queued :
    (DiscardMulti (5 : Int) ⟨true, [["incr", "a"]]⟩).reply = Reply.queued ∧
    (StartMulti (5 : Int) ⟨false, []⟩).reply = Reply.ok ∧
    (DiscardMulti (5 : Int) ⟨true, [["incr", "a"]]⟩).reply
      ≠ (StartMulti (5 : Int) ⟨false, []⟩).reply :=
  ⟨rfl, rfl, fun h => Reply.noConfusion h⟩

/-! ## Command names -/

/-- C18 (case-insensitive command names): for two lines with the same argument
tokens whose names have the same case folding, with an arity rule that looks at
the number of tokens only, `EnqueueCmd` gives the same reply to both and either
leaves the session unchanged for both or appends each line as given; the
planning loop of `ExecMulti` treats both alike and obtains the same keys from
the same prepare function. -/
theorem case_insensitive_names (env : Env σ) (db : σ) (conn : Session) (n1 n2 : String)
    (args : List String)
    (hfold : env.toLower n1 = env.toLower n2)
    (harity : ∀ (a : Int) (l1 l2 : CmdLine), l1.length = l2.length →
      env.validateArity a l1 = env.validateArity a l2) :
    (∃ r1 r2, EnqueueCmd env db conn (n1 :: args) = .ok r1 ∧
      EnqueueCmd env db conn (n2 :: args) = .ok r2 ∧ r1.reply = r2.reply ∧
      ((r1.conn = conn ∧ r2.conn = conn) ∨
        (r1.conn = ⟨conn.multiState, conn.queue ++ [n1 :: args]⟩ ∧
          r2.conn = ⟨conn.multiState, conn.queue ++ [n2 :: args]⟩))) ∧
    (∀ rest w r, planLoop env ((n1 :: args) :: rest) w r
      = planLoop env ((n2 :: args) :: rest) w r) ∧
    env.cmdTable (env.toLower n1) = env.cmdTable (env.toLower n2) ∧
    keysOf env (n1 :: args) = keysOf env (n2 :: args) := by
  refine ⟨?_, ?_, by rw [hfold], by simp only [keysOf, hfold]⟩
  · cases htab : env.cmdTable (env.toLower n1) with
    | none =>
      have htab2 : env.cmdTable (env.toLower n2) = none := by rw [← hfold]; exact htab
      exact ⟨_, _, EnqueueCmd_unknown env db conn n1 args htab,
        EnqueueCmd_unknown env db conn n2 args htab2, by simp [hfold], Or.inl ⟨rfl, rfl⟩⟩
    | some cmd =>
      have htab2 : env.cmdTable (env.toLower n2) = some cmd := by rw [← hfold]; exact htab
      by_cases hden : env.toLower n1 ∈ forbiddenInMulti
      · have hden2 : env.toLower n2 ∈ forbiddenInMulti := by rw [← hfold]; exact hden
        exact ⟨_, _, EnqueueCmd_denylisted env db conn n1 args cmd htab hden,
          EnqueueCmd_denylisted env db conn n2 args cmd htab2 hden2, by simp [hfold],
          Or.inl ⟨rfl, rfl⟩⟩
      · have hden2 : env.toLower n2 ∉ forbiddenInMulti := by rw [← hfold]; exact hden
        cases hprep : cmd.prepare with
        | none =>
          exact ⟨_, _, EnqueueCmd_no_prepare env db conn n1 args cmd htab hden hprep,
            EnqueueCmd_no_prepare env db conn n2 args cmd htab2 hden2 hprep, by simp [hfold],
            Or.inl ⟨rfl, rfl⟩⟩
        | some prepare =>
          have hsame : env.validateArity cmd.arity (n1 :: args)
              = env.validateArity cmd.arity (n2 :: args) := harity _ _ _ (by simp)
          cases har : env.validateArity cmd.arity (n1 :: args) with
          | false =>
            have har2 : env.validateArity cmd.arity (n2 :: args) = false := by
              rw [← hsame]; exact har
            exact ⟨_, _,
              EnqueueCmd_wrong_arity env db conn n1 args cmd prepare htab hden hprep har,
              EnqueueCmd_wrong_arity env db conn n2 args cmd prepare htab2 hden2 hprep har2,
              by simp [hfold], Or.inl ⟨rfl, rfl⟩⟩
          | true =>
            have har2 : env.validateArity cmd.arity (n2 :: args) = true := by
              rw [← hsame]; exact har
            exact ⟨_, _,
              EnqueueCmd_accepts env db conn n1 args cmd prepare htab hden hprep har,
              EnqueueCmd_accepts env db conn n2 args cmd prepare htab2 hden2 hprep har2,
              rfl, Or.inr ⟨rfl, rfl⟩⟩
  · intro rest w r
    simp only [planLoop, hfold]

theorem toyArity_counts (a : Int) (l1 l2 : CmdLine) (h : l1.length = l2.length) :
    toyEnv.validateArity a l1 = toyEnv.validateArity a l2 := by
  simp [toyEnv, toyArity, h]

/-- The names `InCr` and `incr` on the counter keyspace. -/
theorem case_insensitive_names_witness :
    (∃ r1 r2, EnqueueCmd toyEnv 5 ⟨true, []⟩ ["InCr", "a"] = .ok r1 ∧
      EnqueueCmd toyEnv 5 ⟨true, []⟩ ["incr", "a"] = .ok r2 ∧ r1.reply = r2.reply ∧
      ((r1.conn = ⟨true, []⟩ ∧ r2.conn = ⟨true, []⟩) ∨
        (r1.conn = ⟨true, [] ++ [["InCr", "a"]]⟩ ∧
          r2.conn = ⟨true, [] ++ [["incr", "a"]]⟩))) ∧
    (∀ rest w r, planLoop toyEnv (["InCr", "a"] :: rest) w r
      = planLoop toyEnv (["incr", "a"] :: rest) w r) ∧
    toyEnv.cmdTable (toyEnv.toLower "InCr") = toyEnv.cmdTable (toyEnv.toLower "incr") ∧
    keysOf toyEnv ["InCr", "a"] = keysOf toyEnv ["incr", "a"] :=
  case_insensitive_names toyEnv 5 ⟨true, []⟩ "InCr" "incr" ["a"] (by decide) toyArity_counts

theorem queued_plannable (env : Env σ) (db : σ) (conn : Session) (l : CmdLine)
    (out : Result σ) (h : EnqueueCmd env db conn l = .ok out)
    (hr : out.reply = Reply.queued) :
    ∃ name args cmd prepare, l = name :: args ∧
      env.cmdTable (env.toLower name) = some cmd ∧ cmd.prepare = some prepare := by
  cases l with
  | nil => simp [EnqueueCmd] at h
  | cons name args =>
    obtain ⟨out2, h2, hiff, _⟩ := EnqueueCmd_nonempty env db conn name args
    have he : out = out2 := by
      rw [h2] at h
      exact (Except.ok.inj h).symm
    subst he
    obtain ⟨cmd, htab, _, hp, _⟩ := hiff.mp hr
    obtain ⟨prepare, hprep⟩ := Option.isSome_iff_exists.mp hp
    exact ⟨name, args, cmd, prepare, rfl, htab, hprep⟩

/-- C19 (planning is safe for admitted batches): for a batch each of whose
lines `EnqueueCmd` accepted against the same command table, every line has a
token 0, its case-folded name is in the table with a prepare function, the
planning loop ends without a panic and `ExecMulti` returns on every keyspace
state. -/
theorem planning_safe_for_admitted (env : Env σ) (batch : List CmdLine)
    (hadm : ∀ l ∈ batch, ∃ (db : σ) (conn : Session) (out : Result σ),
      EnqueueCmd env db conn l = .ok out ∧ out.reply = Reply.queued) :
    (∀ l ∈ batch, ∃ name args cmd prepare, l = name :: args ∧
      env.cmdTable (env.toLower name) = some cmd ∧ cmd.prepare = some prepare) ∧
    (∃ keys, planLoop env batch [] [] = .ok keys) ∧
    (∀ s, ∃ out, ExecMulti env s batch = .ok out) := by
  have hdesc : ∀ l ∈ batch, ∃ name args cmd prepare, l = name :: args ∧
      env.cmdTable (env.toLower name) = some cmd ∧ cmd.prepare = some prepare := by
    intro l hl
    obtain ⟨db, conn, out, h, hr⟩ := hadm l hl
    exact queued_plannable env db conn l out h hr
  have hplan : ∀ l ∈ batch, plannable env l = true := by
    intro l hl
    obtain ⟨name, args, cmd, prepare, rfl, htab, hprep⟩ := hdesc l hl
    simp [plannable, htab, hprep]
  exact ⟨hdesc, planLoop_ok env batch hplan [] [], fun s => ExecMulti_returns env s batch hplan⟩

/-- Two lines the counter keyspace admits, one of them in mixed case. -/
theorem planning_safe_for_admitted_witness :
    (∃ keys, planLoop toyEnv [["InCr", "a"], ["get", "b"]] [] [] = .ok keys) ∧
    (∀ s, ∃ out, ExecMulti toyEnv s [["InCr", "a"], ["get", "b"]] = .ok out) :=
  (planning_safe_for_admitted toyEnv [["InCr", "a"], ["get", "b"]] (by
    intro l hl
    simp only [List.mem_cons, List.mem_singleton, List.not_mem_nil, or_false] at hl
    rcases hl with rfl | rfl
    · exact ⟨5, ⟨true, []⟩, _, rfl, rfl⟩
    · exact ⟨5, ⟨true, [["InCr", "a"]]⟩, _, rfl, rfl⟩)).2

/-! ## Compensation -/

/-- C20 (compensation ignores its own failures): on the abort path, whatever
the compensating commands reply, the lines executed after the forward steps
are a rearrangement of all the lines of all the accumulated undo entries, each
occurrence executed once; their number is the total number of accumulated undo
lines, and the reply is the single EXECABORT error. -/
theorem compensation_runs_every_line (env : Env σ) (s : σ) (batch : List CmdLine) (k : Nat)
    (hplan : ∀ l ∈ batch, plannable env l = true)
    (hk : k < batch.length)
    (hok : ∀ i, i < k → IsErrorReply (replyAt env s batch i) = false)
    (hfail : IsErrorReply (replyAt env s batch k) = true) :
    ∃ (out : Outcome σ) (w r : List String) (comp : List CmdLine),
      ExecMulti env s batch = .ok out ∧
      out.reply = Reply.err "EXECABORT Transaction discarded because of previous errors." ∧
      out.trace = Action.RWLocks w r :: ((batch.take (k + 1)).flatMap forwardTrace ++
        comp.map Action.ExecWithLock) ++ [Action.RWUnLocks w r] ∧
      List.Perm comp ((List.range k).map (undoAt env s batch)).flatten ∧
      comp.length = (((List.range k).map (undoAt env s batch)).map List.length).sum := by
  obtain ⟨w, r, h⟩ := abort_path_outcome env s batch k hplan hk hok hfail
  have hperm : List.Perm ((List.range k).map (undoAt env s batch)).reverse.flatten
      ((List.range k).map (undoAt env s batch)).flatten :=
    (List.reverse_perm _).flatten
  refine ⟨_, w, r, _, h, rfl, rfl, hperm, ?_⟩
  rw [hperm.length_eq, List.length_flatten]

/-- Every undo entry starts with a line that fails, and all lines still run. -/
theorem compensation_runs_every_line_witness :
    IsErrorReply (failingUndoEnv.ExecWithLock 7 ["lpush", "undo", "x"]).2 = true ∧
    ∃ (out : Outcome Int) (w r : List String) (comp : List CmdLine),
      ExecMulti failingUndoEnv 5 [["incr", "a"], ["decr", "b"], ["lpush", "a", "x"]]
        = .ok out ∧
      out.reply = Reply.err "EXECABORT Transaction discarded because of previous errors." ∧
      out.trace = Action.RWLocks w r ::
        (([["incr", "a"], ["decr", "b"], ["lpush", "a", "x"]].take 3).flatMap forwardTrace ++
          comp.map Action.ExecWithLock) ++ [Action.RWUnLocks w r] ∧
      List.Perm comp ((List.range 2).map
        (undoAt failingUndoEnv 5 [["incr", "a"], ["decr", "b"], ["lpush", "a", "x"]])).flatten ∧
      comp.length = (((List.range 2).map
        (undoAt failingUndoEnv 5 [["incr", "a"], ["decr", "b"], ["lpush", "a", "x"]])).map
          List.length).sum :=
  ⟨rfl, compensation_runs_every_line failingUndoEnv 5
    [["incr", "a"], ["decr", "b"], ["lpush", "a", "x"]] 2
    (by decide) (by decide) (by decide) (by decide)⟩

end Godis
